import Mathlib

/-!
Verification of the pbft consensus RPC API (`pbft/api.go`) and the
consensus-engine selection (`fst/backend.go`) of go-stormchain.

Shallow embedding conventions:
* `common.Address` and `common.Hash` are modelled as `Nat`.
* Go `uint64` values are `Nat` with explicit `% 2^64` wraparound where the
  source can overflow (`usub64`); `big.Int` difficulty is a plain `Nat`.
* Go's `float64` arithmetic in `BlockStatus.InturnPercent` is modelled as the
  exact rational `ℚ` value of the same formula.
* Go maps (`map[common.Address]bool`, `map[common.Address]int`) are
  association lists with unique keys; lookups are order-independent, matching
  Go's unordered maps.
* The snapshot store (`pbft.snapshot`) and signature recovery (`pbft.Author`)
  live in other files of the repository; the API code treats them as opaque
  fallible calls, so they are fields of the `Pbft` record — arbitrary
  functions the theorems quantify over.
* Fallible Go functions returning `(T, error)` become `Except PbftError T`.
-/

set_option autoImplicit false

namespace Stormchain

abbrev Address := Nat
abbrev Hash := Nat

/-- Errors surfaced by the pbft API: `errUnknownBlock`, the
`fmt.Errorf("missing block %d", n)` of `BlockStatus`, and opaque errors
bubbling out of the snapshot store or signature recovery. -/
inductive PbftError where
  | unknownBlock : PbftError
  | missingBlock (n : Nat) : PbftError
  | other (code : Nat) : PbftError
  deriving DecidableEq, Repr

/-- The header fields the API reads: `Number`, `Hash()` and `Difficulty`. -/
structure Header where
  number : Nat
  hash : Hash
  difficulty : Nat
  deriving DecidableEq, Repr

/-- `consensus.ChainReader`: the read-only chain interface consumed by the
API (`CurrentHeader`, `GetHeaderByNumber`, `GetHeaderByHash`); a `none`
result models Go's `nil` header on miss. -/
structure ChainReader where
  currentHeader : Header
  getHeaderByNumber : Nat → Option Header
  getHeaderByHash : Hash → Option Header

/-- The snapshot as consumed by the API: the only observation the API makes
of a resolved snapshot is `snap.signers()`, its sorted signer list. -/
structure Snapshot where
  signers : List Address
  deriving DecidableEq, Repr

/-- The `Pbft` engine state visible to the API: the snapshot resolver and
author recovery (opaque, fallible, defined elsewhere in the repository), the
in-memory proposal table `proposals`, and the package constant `diffInTurn`.
The Go mutex fields guard concurrent access and have no sequential content. -/
structure Pbft where
  snapshot : ChainReader → Nat → Hash → Except PbftError Snapshot
  author : Header → Except PbftError Address
  proposals : List (Address × Bool)
  diffInTurn : Nat

/-- `pbft.API`: chain reader plus engine reference. -/
structure API where
  chain : ChainReader
  pbft : Pbft

/-! ### Go map operations on association lists -/

/-- Lookup in a Go map (`m[a]` with presence bit). -/
def mapGet {β : Type} (m : List (Address × β)) (a : Address) : Option β :=
  match m with
  | [] => none
  | (k, v) :: rest => if k = a then some v else mapGet rest a

/-- Go map assignment `m[a] = b`: overwrite the entry if the key is present,
append it otherwise. -/
def mapInsert {β : Type} (m : List (Address × β)) (a : Address) (b : β) :
    List (Address × β) :=
  match m with
  | [] => [(a, b)]
  | (k, v) :: rest =>
      if k = a then (k, b) :: rest else (k, v) :: mapInsert rest a b

/-- Go `delete(m, a)`. -/
def mapErase {β : Type} (m : List (Address × β)) (a : Address) :
    List (Address × β) :=
  match m with
  | [] => []
  | (k, v) :: rest => if k = a then mapErase rest a else (k, v) :: mapErase rest a

/-- Well-formedness of the association-list encoding of a Go map: keys are
unique (Go maps cannot hold a key twice). -/
def WFMap {β : Type} (m : List (Address × β)) : Prop :=
  (m.map Prod.fst).Nodup

instance {β : Type} (m : List (Address × β)) : Decidable (WFMap m) := by
  unfold WFMap; infer_instance

/-! ### The vote API: `Votes`, `Vote`, `DropVote` -/

/-- `API.Vote(address, auth)`: `api.pbft.proposals[address] = auth` under the
write lock. Total: the Go function has no error return. -/
def API.vote (api : API) (address : Address) (auth : Bool) : API :=
  { api with pbft := { api.pbft with
      proposals := mapInsert api.pbft.proposals address auth } }

/-- `API.DropVote(address)`: `delete(api.pbft.proposals, address)` under the
write lock. Total: the Go function has no error return. -/
def API.dropVote (api : API) (address : Address) : API :=
  { api with pbft := { api.pbft with
      proposals := mapErase api.pbft.proposals address } }

/-- `API.Votes()`: builds a fresh map and copies every entry of
`api.pbft.proposals` into it under the read lock, returning the copy. The
engine state is returned unchanged alongside to make the absence of mutation
explicit. -/
def API.votes (api : API) : List (Address × Bool) × API :=
  (api.pbft.proposals.foldl (fun acc p => mapInsert acc p.1 p.2) [], api)

/-! ### Snapshot / validator queries -/

/-- `rpc.LatestBlockNumber` (value `-1` in `rpc.BlockNumber`). -/
def latestBlockNumber : Int := -1

/-- Go `uint64(n)` cast of an `int64` (two's-complement reinterpretation). -/
def uint64OfInt64 (n : Int) : Nat := (n % (2 : Int) ^ 64).toNat

/-- The header-resolution preamble shared by `GetBlockStatusByNumber` and
`GetValidatorsByNumber`: a `nil` or `Latest` number parameter yields the
current header, otherwise the header at the requested number is looked up. -/
def resolveByNumber (chain : ChainReader) (number : Option Int) : Option Header :=
  match number with
  | none => some chain.currentHeader
  | some n =>
      if n = latestBlockNumber then some chain.currentHeader
      else chain.getHeaderByNumber (uint64OfInt64 n)

/-- Tail of `GetBlockStatusByNumber`/`GetBlockStatusByHash` once a header is
in hand: `api.pbft.snapshot(api.chain, header.Number.Uint64(), header.Hash(), nil)`. -/
def snapshotOf (api : API) (header : Header) : Except PbftError Snapshot :=
  api.pbft.snapshot api.chain header.number header.hash

/-- Tail of `GetValidatorsByNumber`/`GetValidatorsByHash` once a header is in
hand: resolve the snapshot, propagate its error, else return `snap.signers()`. -/
def validatorsOf (api : API) (header : Header) : Except PbftError (List Address) :=
  match snapshotOf api header with
  | .error e => .error e
  | .ok snap => .ok snap.signers

/-- `API.GetBlockStatusByNumber`. -/
def API.getBlockStatusByNumber (api : API) (number : Option Int) :
    Except PbftError Snapshot :=
  match resolveByNumber api.chain number with
  | none => .error .unknownBlock
  | some header => snapshotOf api header

/-- `API.GetBlockStatusByHash`. -/
def API.getBlockStatusByHash (api : API) (hash : Hash) :
    Except PbftError Snapshot :=
  match api.chain.getHeaderByHash hash with
  | none => .error .unknownBlock
  | some header => snapshotOf api header

/-- `API.GetValidatorsByNumber`. -/
def API.getValidatorsByNumber (api : API) (number : Option Int) :
    Except PbftError (List Address) :=
  match resolveByNumber api.chain number with
  | none => .error .unknownBlock
  | some header => validatorsOf api header

/-- `API.GetValidatorsByHash`. -/
def API.getValidatorsByHash (api : API) (hash : Hash) :
    Except PbftError (List Address) :=
  match api.chain.getHeaderByHash hash with
  | none => .error .unknownBlock
  | some header => validatorsOf api header

/-! ### `BlockStatus` -/

/-- Wrapping `uint64` subtraction `a - b` (operands already reduced mod
`2^64`). -/
def usub64 (a b : Nat) : Nat := (a + 2 ^ 64 - b % 2 ^ 64) % 2 ^ 64

/-- The `status` struct returned by `BlockStatus`; `InturnPercent` is the
exact rational value of the Go `float64` formula. -/
structure BlockStatusRes where
  inturnPercent : ℚ
  signingStatus : List (Address × Nat)
  numBlocks : Nat
  deriving DecidableEq, Repr

/-- `signStatus[sealer]++` on a Go `map[common.Address]int`: a missing key
reads as `0`, so the increment inserts `1`. -/
def incCount (m : List (Address × Nat)) (a : Address) : List (Address × Nat) :=
  match mapGet m a with
  | none => mapInsert m a 1
  | some c => mapInsert m a (c + 1)

/-- The `for n := start; n < end; n++` body of `BlockStatus`, folded over the
list of block numbers in `[start, end)`: fetch each header (failing
`missing block n` on a `nil` header), count in-turn difficulties in
`optimals`, accumulate `diff` (dead: never returned), recover the author and
bump its `signStatus` count. -/
def statusLoop (api : API) :
    List Nat → Nat → Nat → List (Address × Nat) →
      Except PbftError (Nat × Nat × List (Address × Nat))
  | [], optimals, diff, signStatus => .ok (optimals, diff, signStatus)
  | n :: ns, optimals, diff, signStatus =>
      match api.chain.getHeaderByNumber n with
      | none => .error (.missingBlock n)
      | some h =>
          let optimals' := if h.difficulty = api.pbft.diffInTurn then
            optimals + 1 else optimals
          let diff' := (diff + h.difficulty % 2 ^ 64) % 2 ^ 64
          match api.pbft.author h with
          | .error e => .error e
          | .ok sealer =>
              statusLoop api ns optimals' diff' (incCount signStatus sealer)

/-- `API.BlockStatus`: resolve the snapshot at the current head, derive the
window `[start, end)` from `numBlocks = 64` with `uint64` arithmetic
(re-clamping `start := 1, numBlocks := end - start` when `numBlocks > end`),
zero-initialise the per-signer counters, run the loop, and package the
result with `InturnPercent = 100*optimals/numBlocks`. -/
def API.blockStatus (api : API) : Except PbftError BlockStatusRes :=
  let numBlocks : Nat := 64
  let header := api.chain.currentHeader
  match api.pbft.snapshot api.chain header.number header.hash with
  | .error e => .error e
  | .ok snap =>
      let signers := snap.signers
      let finish := header.number
      let start := usub64 finish numBlocks
      let start' := if numBlocks > finish then 1 else start
      let numBlocks' := if numBlocks > finish then usub64 finish 1 else numBlocks
      let signStatus := signers.foldl (fun m s => mapInsert m s 0) []
      match statusLoop api (List.range' start' (finish - start')) 0 0 signStatus with
      | .error e => .error e
      | .ok (optimals, _, signStatus') =>
          .ok { inturnPercent := (100 * optimals : ℚ) / (numBlocks' : ℚ)
                signingStatus := signStatus'
                numBlocks := numBlocks' }

/-! ### Derived descriptions of the `BlockStatus` window

These name the values the `BlockStatus` code computes for the window, so the
theorems can speak about them: for head number `n` the loop runs over
`[start, end)` with `end = n` and `start = n - 64`, re-clamped to `start = 1`
with `numBlocks = n - 1` (wrapping `uint64` subtraction) when `64 > n`. -/

/-- The `start` of the `BlockStatus` loop for head number `n`. -/
def windowStart (n : Nat) : Nat := if 64 > n then 1 else usub64 n 64

/-- The block numbers the `BlockStatus` loop iterates over for head number
`n` (`for n := start; n < end; n++`). -/
def statusWindow (n : Nat) : List Nat := List.range' (windowStart n) (n - windowStart n)

/-- The `numBlocks` value `BlockStatus` reports for head number `n`. -/
def reportedNumBlocks (n : Nat) : Nat := if 64 > n then usub64 n 1 else 64

/-- The initial `signStatus` map: every signer mapped to `0`, in slice
order. -/
def initStatus (signers : List Address) : List (Address × Nat) :=
  signers.foldl (fun m s => mapInsert m s 0) []

/-- `true` iff the header at block `n` is present and its author recovers:
the condition under which the loop iteration for `n` cannot fail. -/
def headerOk (api : API) (n : Nat) : Bool :=
  match api.chain.getHeaderByNumber n with
  | none => false
  | some h =>
      match api.pbft.author h with
      | .ok _ => true
      | .error _ => false

/-- `true` iff the header at block `n`, when present, has a recovering
author (vacuously `true` on a missing header). -/
def authorOkAt (api : API) (n : Nat) : Bool :=
  match api.chain.getHeaderByNumber n with
  | none => true
  | some h =>
      match api.pbft.author h with
      | .ok _ => true
      | .error _ => false

/-- How many of the blocks `ns` carry the in-turn difficulty
(`h.Difficulty.Cmp(diffInTurn) == 0`). -/
def inturnCount (api : API) (ns : List Nat) : Nat :=
  ns.countP fun n =>
    match api.chain.getHeaderByNumber n with
    | some h => decide (h.difficulty = api.pbft.diffInTurn)
    | none => false

/-- How many of the blocks `ns` were authored by `a` (per `pbft.Author`). -/
def authoredCount (api : API) (a : Address) (ns : List Nat) : Nat :=
  ns.countP fun n =>
    match api.chain.getHeaderByNumber n with
    | some h =>
        match api.pbft.author h with
        | .ok s => decide (s = a)
        | .error _ => false
    | none => false

/-- Lookup with Go's zero-value default for `map[common.Address]int`. -/
def lookupD (m : List (Address × Nat)) (a : Address) : Nat :=
  (mapGet m a).getD 0

/-! ### `CreateConsensusEngine` (fst/backend.go) -/

/-- `fstash.Mode` (`config.PowMode`). -/
inductive PowMode where
  | normal : PowMode
  | shared : PowMode
  | test : PowMode
  | fake : PowMode
  | fullFake : PowMode
  deriving DecidableEq, Repr

/-- `params.CliqueConfig` (contents irrelevant to engine selection). -/
structure CliqueConfig where
  period : Nat
  epoch : Nat
  deriving DecidableEq, Repr

/-- `params.PbftConfig` (contents irrelevant to engine selection). -/
structure PbftConfig where
  period : Nat
  epoch : Nat
  deriving DecidableEq, Repr

/-- The part of `params.ChainConfig` that `CreateConsensusEngine` inspects:
the `Clique` and `Pbft` sections (`none` models a `nil` pointer). -/
structure ChainConfig where
  clique : Option CliqueConfig
  pbft : Option PbftConfig
  deriving DecidableEq, Repr

/-- `fstash.Config` as read by `CreateConsensusEngine`. -/
structure FstashConfig where
  powMode : PowMode
  cacheDir : String
  cachesInMem : Nat
  cachesOnDisk : Nat
  datasetDir : String
  datasetsInMem : Nat
  datasetsOnDisk : Nat
  deriving DecidableEq, Repr

/-- `node.ServiceContext`: only `ResolvePath` is used, inside the default
proof-of-work branch, to parametrise the constructed engine (not its
variant). -/
structure ServiceContext where
  resolvePath : String → String

/-- `fstdb.Database` handle (opaque). -/
structure Database where
  id : Nat

/-- The closed set of engine variants `CreateConsensusEngine` can return;
constructor parameters of the concrete Go engines are abstracted away, the
claim being about which variant is selected. -/
inductive EngineVariant where
  | clique : EngineVariant
  | pbft : EngineVariant
  | fstashFaker : EngineVariant
  | fstashTester : EngineVariant
  | fstashShared : EngineVariant
  | fstashFull : EngineVariant
  deriving DecidableEq, Repr

/-- The `switch config.PowMode` of the proof-of-work fallback branch. -/
def powEngineVariant (mode : PowMode) : EngineVariant :=
  match mode with
  | .fake => .fstashFaker
  | .test => .fstashTester
  | .shared => .fstashShared
  | _ => .fstashFull

/-- `CreateConsensusEngine` (variant selection): Clique if
`chainConfig.Clique != nil`, else pbft if `chainConfig.Pbft != nil`, else
the proof-of-work engine chosen by `config.PowMode`. -/
def createConsensusEngine (ctx : ServiceContext) (chainConfig : ChainConfig)
    (config : FstashConfig) (notify : List String) (noverify : Bool)
    (db : Database) : EngineVariant :=
  match chainConfig.clique with
  | some _ => .clique
  | none =>
      match chainConfig.pbft with
      | some _ => .pbft
      | none =>
          match config.powMode with
          | .fake => .fstashFaker
          | .test => .fstashTester
          | .shared => .fstashShared
          | _ => .fstashFull

/-! ### Projections of a `BlockStatus` outcome (used to state the claims
without existential binders) -/

/-- `NumBlocks` of a successful `BlockStatus` call. -/
def resNumBlocks : Except PbftError BlockStatusRes → Option Nat
  | .ok r => some r.numBlocks
  | .error _ => none

/-- `InturnPercent` of a successful `BlockStatus` call. -/
def resPercent : Except PbftError BlockStatusRes → Option ℚ
  | .ok r => some r.inturnPercent
  | .error _ => none

/-- The `SigningStatus` entry of address `a` (presence included). -/
def resSealerCount : Except PbftError BlockStatusRes → Address → Option Nat
  | .ok r, a => mapGet r.signingStatus a
  | .error _, _ => none

/-- The `SigningStatus` count of address `a`, zero-defaulted. -/
def resSealerCountD : Except PbftError BlockStatusRes → Address → Option Nat
  | .ok r, a => some (lookupD r.signingStatus a)
  | .error _, _ => none

/-! ### Concrete fixtures used by witnesses and counterexamples -/

/-- A concrete chain: head at block 100, headers present for all blocks up
to 100, in-turn difficulty `2` on multiples of 3, out-of-turn `1`
otherwise. -/
def wChain : ChainReader :=
  { currentHeader := ⟨100, 100, 2⟩
    getHeaderByNumber := fun n =>
      if n ≤ 100 then some ⟨n, n, if n % 3 = 0 then 2 else 1⟩ else none
    getHeaderByHash := fun h => if h ≤ 100 then some ⟨h, h, 2⟩ else none }

/-- A concrete engine: snapshot resolution always succeeds with signers
`[5, 7]`, authorship alternates by parity, two proposals on file. -/
def wPbft : Pbft :=
  { snapshot := fun _ _ _ => .ok ⟨[5, 7]⟩
    author := fun h => .ok (if h.number % 2 = 0 then 5 else 7)
    proposals := [(1, true), (2, false)]
    diffInTurn := 2 }

/-- Concrete API fixture. -/
def wApi : API := ⟨wChain, wPbft⟩

/-- Concrete API whose snapshot store always fails with error code 42. -/
def eApi : API :=
  ⟨wChain,
    { snapshot := fun _ _ _ => .error (.other 42)
      author := fun _ => .ok 0
      proposals := []
      diffInTurn := 2 }⟩

/-- Chain whose head is the genesis header (block number 0). -/
def zApi : API :=
  ⟨{ currentHeader := ⟨0, 0, 2⟩
     getHeaderByNumber := fun n => if n = 0 then some ⟨0, 0, 2⟩ else none
     getHeaderByHash := fun h => if h = 0 then some ⟨0, 0, 2⟩ else none },
   { snapshot := fun _ _ _ => .ok ⟨[7]⟩
     author := fun _ => .ok 7
     proposals := []
     diffInTurn := 2 }⟩

/-- Chain with head number 64 (a full 64-block window) in which exactly the
53 evaluated blocks 0..52 carry the in-turn difficulty. -/
def cApi64 : API :=
  ⟨{ currentHeader := ⟨64, 64, 1⟩
     getHeaderByNumber := fun n =>
       if n ≤ 64 then some ⟨n, n, if n < 53 then 2 else 1⟩ else none
     getHeaderByHash := fun h => if h ≤ 64 then some ⟨h, h, 1⟩ else none },
   { snapshot := fun _ _ _ => .ok ⟨[9]⟩
     author := fun _ => .ok 9
     proposals := []
     diffInTurn := 2 }⟩

/-- `wApi` with the header at block 50 (inside the evaluated window)
missing. -/
def mApi : API :=
  ⟨{ currentHeader := ⟨100, 100, 2⟩
     getHeaderByNumber := fun n =>
       if n = 50 then none else wChain.getHeaderByNumber n
     getHeaderByHash := wChain.getHeaderByHash },
   wPbft⟩

/-- `wApi` with every header outside the evaluated window `[36, 100)`
removed (same head header, same engine). -/
def wApiB : API :=
  ⟨{ currentHeader := ⟨100, 100, 2⟩
     getHeaderByNumber := fun n =>
       if n < 100 then wChain.getHeaderByNumber n else none
     getHeaderByHash := fun _ => none },
   wPbft⟩

/-- Engine for the short-chain fixtures. -/
def sPbft : Pbft :=
  { snapshot := fun _ _ _ => .ok ⟨[3]⟩
    author := fun _ => .ok 3
    proposals := []
    diffInTurn := 2 }

/-- Short chain: head number 10 (clamped window `[1, 10)`). -/
def sApi : API :=
  ⟨{ currentHeader := ⟨10, 10, 1⟩
     getHeaderByNumber := fun n => if n ≤ 10 then some ⟨n, n, 2⟩ else none
     getHeaderByHash := fun h => if h ≤ 10 then some ⟨h, h, 2⟩ else none },
   sPbft⟩

/-- `sApi` with the genesis header and the head's number lookup removed:
only blocks `[1, 10)` remain. -/
def sApiB : API :=
  ⟨{ currentHeader := ⟨10, 10, 1⟩
     getHeaderByNumber := fun n =>
       if 1 ≤ n ∧ n < 10 then some ⟨n, n, 2⟩ else none
     getHeaderByHash := fun _ => none },
   sPbft⟩

/-- Concrete proof-of-work configuration. -/
def wFstashConfig : FstashConfig :=
  { powMode := .normal
    cacheDir := "fstash"
    cachesInMem := 2
    cachesOnDisk := 3
    datasetDir := "dataset"
    datasetsInMem := 1
    datasetsOnDisk := 2 }

/-! ## Lemmas about the Go-map association lists -/

theorem mapGet_mapInsert_self {β : Type} (m : List (Address × β)) (a : Address)
    (b : β) : mapGet (mapInsert m a b) a = some b := by
  induction m with
  | nil => simp [mapInsert, mapGet]
  | cons p rest ih =>
      obtain ⟨k, v⟩ := p
      by_cases hk : k = a
      · simp [mapInsert, mapGet, hk]
      · simp [mapInsert, mapGet, hk, ih]

theorem mapGet_mapInsert_ne {β : Type} (m : List (Address × β)) (a x : Address)
    (b : β) (hx : x ≠ a) :
    mapGet (mapInsert m a b) x = mapGet m x := by
  have hax : a ≠ x := fun h => hx h.symm
  induction m with
  | nil => simp [mapInsert, mapGet, hax]
  | cons p rest ih =>
      obtain ⟨k, v⟩ := p
      by_cases hk : k = a
      · subst hk
        simp [mapInsert, mapGet, hax]
      · by_cases hkx : k = x <;> simp [mapInsert, mapGet, hk, hkx, ih, hax, hx]

theorem mapGet_mapErase_self {β : Type} (m : List (Address × β)) (a : Address) :
    mapGet (mapErase m a) a = none := by
  induction m with
  | nil => simp [mapErase, mapGet]
  | cons p rest ih =>
      obtain ⟨k, v⟩ := p
      by_cases hk : k = a <;> simp [mapErase, mapGet, hk, ih]

theorem mapGet_mapErase_ne {β : Type} (m : List (Address × β)) (a x : Address)
    (hx : x ≠ a) : mapGet (mapErase m a) x = mapGet m x := by
  have hax : a ≠ x := fun h => hx h.symm
  induction m with
  | nil => simp [mapErase]
  | cons p rest ih =>
      obtain ⟨k, v⟩ := p
      by_cases hk : k = a
      · subst hk
        simp [mapErase, mapGet, hax, ih]
      · by_cases hkx : k = x <;> simp [mapErase, mapGet, hk, hkx, ih, hax, hx]

theorem mapInsert_of_get_none {β : Type} (m : List (Address × β)) (a : Address)
    (b : β) (h : mapGet m a = none) : mapInsert m a b = m ++ [(a, b)] := by
  induction m with
  | nil => simp [mapInsert]
  | cons p rest ih =>
      obtain ⟨k, v⟩ := p
      by_cases hk : k = a
      · simp [mapGet, hk] at h
      · simp [mapGet, hk] at h
        simp [mapInsert, hk, ih h]

theorem mapErase_append {β : Type} (l1 l2 : List (Address × β)) (a : Address) :
    mapErase (l1 ++ l2) a = mapErase l1 a ++ mapErase l2 a := by
  induction l1 with
  | nil => simp [mapErase]
  | cons p rest ih =>
      obtain ⟨k, v⟩ := p
      by_cases hk : k = a <;> simp [mapErase, hk, ih]

theorem mapErase_of_get_none {β : Type} (m : List (Address × β)) (a : Address)
    (h : mapGet m a = none) : mapErase m a = m := by
  induction m with
  | nil => simp [mapErase]
  | cons p rest ih =>
      obtain ⟨k, v⟩ := p
      by_cases hk : k = a
      · simp [mapGet, hk] at h
      · simp [mapGet, hk] at h
        simp [mapErase, hk, ih h]

theorem mapGet_append {β : Type} (l1 l2 : List (Address × β)) (a : Address) :
    mapGet (l1 ++ l2) a =
      match mapGet l1 a with
      | some v => some v
      | none => mapGet l2 a := by
  induction l1 with
  | nil => simp [mapGet]
  | cons p rest ih =>
      obtain ⟨k, v⟩ := p
      by_cases hk : k = a <;> simp [mapGet, hk, ih]

/-- The copying fold of `Votes` over a duplicate-free table reproduces the
table, entry for entry. -/
theorem foldl_mapInsert_copy (m acc : List (Address × Bool)) (hnd : WFMap m)
    (hdisj : ∀ p ∈ m, mapGet acc p.1 = none) :
    m.foldl (fun acc p => mapInsert acc p.1 p.2) acc = acc ++ m := by
  induction m generalizing acc with
  | nil => simp
  | cons p rest ih =>
      obtain ⟨k, v⟩ := p
      have hk : mapGet acc k = none := hdisj (k, v) (List.mem_cons_self _ _)
      have hnd' : WFMap rest := (List.nodup_cons.mp hnd).2
      have hknot : k ∉ rest.map Prod.fst := (List.nodup_cons.mp hnd).1
      have hstep : mapInsert acc k v = acc ++ [(k, v)] :=
        mapInsert_of_get_none acc k v hk
      have hdisj' : ∀ p ∈ rest, mapGet (acc ++ [(k, v)]) p.1 = none := by
        intro q hq
        have h1 : mapGet acc q.1 = none := hdisj q (List.mem_cons_of_mem _ hq)
        have h2 : q.1 ≠ k := by
          intro he
          exact hknot (he ▸ List.mem_map_of_mem Prod.fst hq)
        have h2' : k ≠ q.1 := fun h => h2 h.symm
        rw [mapGet_append, h1]
        simp [mapGet, h2']
      calc ((k, v) :: rest).foldl (fun acc p => mapInsert acc p.1 p.2) acc
          = rest.foldl (fun acc p => mapInsert acc p.1 p.2) (acc ++ [(k, v)]) := by
            simp [List.foldl_cons, hstep]
        _ = (acc ++ [(k, v)]) ++ rest := ih (acc ++ [(k, v)]) hnd' hdisj'
        _ = acc ++ ((k, v) :: rest) := by simp

/-! ## Claims C5, C6, C10: the proposal-table API -/

/-- **C5.** `Vote(a, b)` sets the proposal-table entry for `a` to `b`
(inserting or overwriting) and leaves every other entry unchanged;
`DropVote(a)` removes the entry for `a` and leaves every other entry
unchanged. Neither operation can fail: both are total functions into `API`,
mirroring the error-free Go signatures. -/
theorem C5_vote_dropVote_pointwise (api : API) (a : Address) (b : Bool) :
    mapGet (api.vote a b).pbft.proposals a = some b ∧
    (∀ x, x ≠ a → mapGet (api.vote a b).pbft.proposals x = mapGet api.pbft.proposals x) ∧
    mapGet (api.dropVote a).pbft.proposals a = none ∧
    (∀ x, x ≠ a → mapGet (api.dropVote a).pbft.proposals x = mapGet api.pbft.proposals x) := by
  refine ⟨?_, ?_, ?_, ?_⟩
  · exact mapGet_mapInsert_self _ a b
  · intro x hx
    exact mapGet_mapInsert_ne _ a x b hx
  · exact mapGet_mapErase_self _ a
  · intro x hx
    exact mapGet_mapErase_ne _ a x hx

/-- Witness for C5 at a concrete engine state. -/
theorem C5_witness :
    mapGet ((wApi.vote 1 true).pbft.proposals) 1 = some true ∧
    mapGet ((wApi.vote 1 true).pbft.proposals) 2 = mapGet wApi.pbft.proposals 2 ∧
    mapGet ((wApi.dropVote 1).pbft.proposals) 1 = none ∧
    mapGet ((wApi.dropVote 1).pbft.proposals) 2 = mapGet wApi.pbft.proposals 2 := by
  obtain ⟨h1, h2, h3, h4⟩ := C5_vote_dropVote_pointwise wApi 1 true
  exact ⟨h1, h2 2 (by decide), h3, h4 2 (by decide)⟩

/-- **C6.** `Votes()` returns a copy of the proposal table: the engine state
comes back unchanged, and (for any well-formed table, i.e. duplicate-free
keys as in a Go map) the returned map has exactly the table's contents. In
this value semantics the returned list is a fresh value built by the
copying fold, so no mutation of it can reach the stored table. -/
theorem C6_votes_copy (api : API) :
    (api.votes).2 = api ∧
    (WFMap api.pbft.proposals → (api.votes).1 = api.pbft.proposals) := by
  constructor
  · rfl
  · intro hwf
    have h := foldl_mapInsert_copy api.pbft.proposals [] hwf (by
      intro p _
      rfl)
    simpa [API.votes] using h

/-- Witness for C6 at a concrete engine state. -/
theorem C6_witness :
    (wApi.votes).2 = wApi ∧ (wApi.votes).1 = wApi.pbft.proposals := by
  obtain ⟨h1, h2⟩ := C6_votes_copy wApi
  exact ⟨h1, h2 (by decide)⟩

/-- **C10.** On a table without an entry for `a`, `Vote(a, b)` followed by
`DropVote(a)` restores the engine state exactly, and `DropVote(a)` alone is
the identity. -/
theorem C10_vote_dropVote_cancel (api : API) (a : Address) (b : Bool)
    (h : mapGet api.pbft.proposals a = none) :
    (api.vote a b).dropVote a = api ∧ api.dropVote a = api := by
  have hprop : mapErase (mapInsert api.pbft.proposals a b) a = api.pbft.proposals := by
    rw [mapInsert_of_get_none _ a b h, mapErase_append,
        mapErase_of_get_none _ a h]
    simp [mapErase, mapGet]
  have hdrop : mapErase api.pbft.proposals a = api.pbft.proposals :=
    mapErase_of_get_none _ a h
  obtain ⟨chain, pbft⟩ := api
  obtain ⟨snapf, authorf, props, dit⟩ := pbft
  constructor
  · simp only [API.vote, API.dropVote] at hprop ⊢
    simp_all
  · simp only [API.dropVote] at hdrop ⊢
    simp_all

/-- Witness for C10 at a concrete engine state (no entry for address 3). -/
theorem C10_witness :
    (wApi.vote 3 false).dropVote 3 = wApi ∧ wApi.dropVote 3 = wApi :=
  C10_vote_dropVote_cancel wApi 3 false (by decide)

/-! ## Claim C7: consensus-engine selection -/

/-- **C7.** `CreateConsensusEngine` selects the variant once, purely from
configuration: Clique when `chainConfig.Clique != nil`, else pbft when
`chainConfig.Pbft != nil`, else the proof-of-work engine determined by
`config.PowMode`; the non-configuration arguments (`ctx`, `notify`,
`noverify`, `db`) never influence the selected variant. -/
theorem C7_engine_selection (ctx : ServiceContext) (chainConfig : ChainConfig)
    (config : FstashConfig) (notify : List String) (noverify : Bool)
    (db : Database) :
    (chainConfig.clique.isSome = true →
      createConsensusEngine ctx chainConfig config notify noverify db = .clique) ∧
    (chainConfig.clique = none → chainConfig.pbft.isSome = true →
      createConsensusEngine ctx chainConfig config notify noverify db = .pbft) ∧
    (chainConfig.clique = none → chainConfig.pbft = none →
      createConsensusEngine ctx chainConfig config notify noverify db =
        powEngineVariant config.powMode) ∧
    (∀ (ctx' : ServiceContext) (notify' : List String) (noverify' : Bool)
        (db' : Database),
      createConsensusEngine ctx' chainConfig config notify' noverify' db' =
        createConsensusEngine ctx chainConfig config notify noverify db) := by
  refine ⟨?_, ?_, ?_, ?_⟩
  · intro h
    obtain ⟨c, hc⟩ := Option.isSome_iff_exists.mp h
    simp [createConsensusEngine, hc]
  · intro h1 h2
    obtain ⟨c, hc⟩ := Option.isSome_iff_exists.mp h2
    simp [createConsensusEngine, h1, hc]
  · intro h1 h2
    cases hm : config.powMode <;>
      simp [createConsensusEngine, powEngineVariant, h1, h2, hm]
  · intro ctx' notify' noverify' db'
    cases hc : chainConfig.clique <;>
      cases hp : chainConfig.pbft <;>
      simp [createConsensusEngine, hc, hp]

/-- Witness for C7 at concrete configurations. -/
theorem C7_witness :
    (createConsensusEngine ⟨id⟩ ⟨none, some ⟨5, 30000⟩⟩ wFstashConfig [] false ⟨0⟩ =
      .pbft) ∧
    (createConsensusEngine ⟨id⟩ ⟨none, none⟩ wFstashConfig [] false ⟨0⟩ =
      powEngineVariant wFstashConfig.powMode) := by
  have h := C7_engine_selection ⟨id⟩ ⟨none, some ⟨5, 30000⟩⟩ wFstashConfig [] false ⟨0⟩
  have h' := C7_engine_selection ⟨id⟩ ⟨none, none⟩ wFstashConfig [] false ⟨0⟩
  exact ⟨h.2.1 rfl rfl, h'.2.2.1 rfl rfl⟩

/-! ## Claims C2 and C4: header resolution and error propagation -/

/-- **C2.** For each of `GetValidatorsByNumber`, `GetValidatorsByHash`,
`GetBlockStatusByNumber`, `GetBlockStatusByHash`: a `nil` (or `Latest`)
number parameter resolves to the current chain head (the result is the
query evaluated at `CurrentHeader()`), and a number or hash whose header
lookup comes back `nil` makes the operation fail with `errUnknownBlock`,
carrying no result (the `error` branch of `Except` holds no value). -/
theorem C2_resolution_unknownBlock (api : API) :
    (∀ number : Option Int, number = none ∨ number = some latestBlockNumber →
      api.getValidatorsByNumber number = validatorsOf api api.chain.currentHeader ∧
      api.getBlockStatusByNumber number = snapshotOf api api.chain.currentHeader) ∧
    (∀ n : Int, n ≠ latestBlockNumber →
      api.chain.getHeaderByNumber (uint64OfInt64 n) = none →
      api.getValidatorsByNumber (some n) = .error .unknownBlock ∧
      api.getBlockStatusByNumber (some n) = .error .unknownBlock) ∧
    (∀ h : Hash, api.chain.getHeaderByHash h = none →
      api.getValidatorsByHash h = .error .unknownBlock ∧
      api.getBlockStatusByHash h = .error .unknownBlock) := by
  refine ⟨?_, ?_, ?_⟩
  · rintro number (rfl | rfl)
    · exact ⟨rfl, rfl⟩
    · constructor
      · simp [API.getValidatorsByNumber, resolveByNumber]
      · simp [API.getBlockStatusByNumber, resolveByNumber]
  · intro n hn hlook
    constructor
    · simp [API.getValidatorsByNumber, resolveByNumber, hn, hlook]
    · simp [API.getBlockStatusByNumber, resolveByNumber, hn, hlook]
  · intro h hlook
    constructor
    · simp [API.getValidatorsByHash, hlook]
    · simp [API.getBlockStatusByHash, hlook]

/-- Witness for C2: on the concrete chain, `nil` and `Latest` resolve to the
head, and block number 2000 / hash 2000 (absent) yield `errUnknownBlock`. -/
theorem C2_witness :
    (wApi.getValidatorsByNumber none = validatorsOf wApi wApi.chain.currentHeader ∧
      wApi.getBlockStatusByNumber none = snapshotOf wApi wApi.chain.currentHeader) ∧
    (wApi.getValidatorsByNumber (some latestBlockNumber) =
        validatorsOf wApi wApi.chain.currentHeader ∧
      wApi.getBlockStatusByNumber (some latestBlockNumber) =
        snapshotOf wApi wApi.chain.currentHeader) ∧
    (wApi.getValidatorsByNumber (some 2000) = .error .unknownBlock ∧
      wApi.getBlockStatusByNumber (some 2000) = .error .unknownBlock) ∧
    (wApi.getValidatorsByHash 2000 = .error .unknownBlock ∧
      wApi.getBlockStatusByHash 2000 = .error .unknownBlock) := by
  obtain ⟨h1, h2, h3⟩ := C2_resolution_unknownBlock wApi
  exact ⟨h1 none (Or.inl rfl), h1 (some latestBlockNumber) (Or.inr rfl),
    h2 2000 (by decide) (by decide), h3 2000 (by decide)⟩

/-- **C4.** Snapshot-store errors propagate unchanged: whenever the
`pbft.snapshot` call made by `GetValidatorsByNumber`, `GetValidatorsByHash`,
`GetBlockStatusByNumber`, `GetBlockStatusByHash` or `BlockStatus` fails with
`e`, the operation returns exactly `.error e` — no default or fallback
snapshot is fabricated. -/
theorem C4_snapshot_error_propagation (api : API) (e : PbftError) :
    (∀ (number : Option Int) (h : Header),
      resolveByNumber api.chain number = some h →
      snapshotOf api h = .error e →
      api.getValidatorsByNumber number = .error e ∧
      api.getBlockStatusByNumber number = .error e) ∧
    (∀ (hash : Hash) (h : Header),
      api.chain.getHeaderByHash hash = some h →
      snapshotOf api h = .error e →
      api.getValidatorsByHash hash = .error e ∧
      api.getBlockStatusByHash hash = .error e) ∧
    (snapshotOf api api.chain.currentHeader = .error e →
      api.blockStatus = .error e) := by
  refine ⟨?_, ?_, ?_⟩
  · intro number h hres hsnap
    constructor
    · simp [API.getValidatorsByNumber, hres, validatorsOf, hsnap]
    · simp [API.getBlockStatusByNumber, hres, hsnap]
  · intro hash h hres hsnap
    constructor
    · simp [API.getValidatorsByHash, hres, validatorsOf, hsnap]
    · simp [API.getBlockStatusByHash, hres, hsnap]
  · intro hsnap
    have : api.pbft.snapshot api.chain api.chain.currentHeader.number
        api.chain.currentHeader.hash = .error e := hsnap
    simp [API.blockStatus, this]

/-- Witness for C4: an engine whose snapshot store always fails with a
concrete error code makes every query return exactly that error. -/
theorem C4_witness :
    (eApi.getValidatorsByNumber none = .error (.other 42) ∧
      eApi.getBlockStatusByNumber none = .error (.other 42)) ∧
    (eApi.getValidatorsByHash 5 = .error (.other 42) ∧
      eApi.getBlockStatusByHash 5 = .error (.other 42)) ∧
    eApi.blockStatus = .error (.other 42) := by
  obtain ⟨h1, h2, h3⟩ := C4_snapshot_error_propagation eApi (.other 42)
  exact ⟨h1 none eApi.chain.currentHeader rfl rfl,
    h2 5 ⟨5, 5, 2⟩ (by decide) rfl, h3 rfl⟩

/-! ## Lemmas about the `BlockStatus` loop -/

theorem lookupD_incCount (m : List (Address × Nat)) (a0 a : Address) :
    lookupD (incCount m a0) a =
      if a0 = a then lookupD m a + 1 else lookupD m a := by
  by_cases hx : a0 = a
  · subst hx
    unfold incCount
    cases hg : mapGet m a0 with
    | none => simp [lookupD, mapGet_mapInsert_self, hg]
    | some c => simp [lookupD, mapGet_mapInsert_self, hg]
  · have hax : a ≠ a0 := fun h => hx h.symm
    unfold incCount
    cases hg : mapGet m a0 with
    | none => simp [lookupD, mapGet_mapInsert_ne _ a0 a _ hax, hx]
    | some c => simp [lookupD, mapGet_mapInsert_ne _ a0 a _ hax, hx]

theorem mapGet_incCount_none (m : List (Address × Nat)) (a0 a : Address) :
    mapGet (incCount m a0) a = none ↔ mapGet m a = none ∧ a ≠ a0 := by
  by_cases hx : a = a0
  · subst hx
    unfold incCount
    cases hg : mapGet m a with
    | none => simp [mapGet_mapInsert_self]
    | some c => simp [mapGet_mapInsert_self]
  · unfold incCount
    cases hg : mapGet m a0 with
    | none => simp [mapGet_mapInsert_ne _ a0 a _ hx, hx]
    | some c => simp [mapGet_mapInsert_ne _ a0 a _ hx, hx]

theorem mapGet_foldl_insert_zero (signers : List Address)
    (m0 : List (Address × Nat)) (a : Address) :
    mapGet (signers.foldl (fun m s => mapInsert m s 0) m0) a =
      if a ∈ signers then some 0 else mapGet m0 a := by
  induction signers generalizing m0 with
  | nil => simp
  | cons s rest ih =>
      rw [List.foldl_cons, ih (mapInsert m0 s 0)]
      by_cases hs : a ∈ rest
      · simp [hs, List.mem_cons]
      · by_cases hsa : a = s
        · subst hsa
          simp [hs, mapGet_mapInsert_self]
        · simp [hs, hsa, List.mem_cons, mapGet_mapInsert_ne m0 s a 0 hsa]

theorem mapGet_initStatus (signers : List Address) (a : Address) :
    mapGet (initStatus signers) a = if a ∈ signers then some 0 else none := by
  have h := mapGet_foldl_insert_zero signers [] a
  simpa [initStatus, mapGet] using h

theorem lookupD_initStatus (signers : List Address) (a : Address) :
    lookupD (initStatus signers) a = 0 := by
  unfold lookupD
  rw [mapGet_initStatus]
  split <;> rfl

theorem headerOk_elim {api : API} {n : Nat} (h : headerOk api n = true) :
    ∃ hd, api.chain.getHeaderByNumber n = some hd ∧
      ∃ a0, api.pbft.author hd = .ok a0 := by
  unfold headerOk at h
  split at h
  next heq => exact absurd h (by simp)
  next hd heq =>
    split at h
    next a0 heq2 => exact ⟨hd, heq, a0, heq2⟩
    next e heq2 => exact absurd h (by simp)

theorem statusLoop_ok_spec (api : API) :
    ∀ ns : List Nat, (∀ n ∈ ns, headerOk api n = true) →
    ∀ (o d : Nat) (st : List (Address × Nat)),
      ∃ d' st', statusLoop api ns o d st = .ok (o + inturnCount api ns, d', st') ∧
        (∀ a, lookupD st' a = lookupD st a + authoredCount api a ns) ∧
        (∀ a, mapGet st' a = none ↔ mapGet st a = none ∧ authoredCount api a ns = 0) := by
  intro ns
  induction ns with
  | nil =>
      intro _ o d st
      refine ⟨d, st, by simp [statusLoop, inturnCount], ?_, ?_⟩
      · intro a
        simp [authoredCount]
      · intro a
        simp [authoredCount]
  | cons n ns ih =>
      intro hall o d st
      obtain ⟨hd, hh, a0, ha⟩ := headerOk_elim (hall n (List.mem_cons_self n ns))
      have hall' : ∀ k ∈ ns, headerOk api k = true :=
        fun k hk => hall k (List.mem_cons_of_mem n hk)
      obtain ⟨d', st', heq, hcount, hnone⟩ :=
        ih hall' (if hd.difficulty = api.pbft.diffInTurn then o + 1 else o)
          ((d + hd.difficulty % 2 ^ 64) % 2 ^ 64) (incCount st a0)
      have hstep : statusLoop api (n :: ns) o d st =
          statusLoop api ns (if hd.difficulty = api.pbft.diffInTurn then o + 1 else o)
            ((d + hd.difficulty % 2 ^ 64) % 2 ^ 64) (incCount st a0) := by
        simp [statusLoop, hh, ha]
      have hturn : inturnCount api (n :: ns) =
          inturnCount api ns + (if hd.difficulty = api.pbft.diffInTurn then 1 else 0) := by
        simp [inturnCount, List.countP_cons, hh]
      refine ⟨d', st', ?_, ?_, ?_⟩
      · rw [hstep, heq, hturn]
        by_cases hdif : hd.difficulty = api.pbft.diffInTurn <;> simp [hdif] <;> omega
      · intro a
        have hcnt : authoredCount api a (n :: ns) =
            authoredCount api a ns + (if a0 = a then 1 else 0) := by
          simp [authoredCount, List.countP_cons, hh, ha]
        rw [hcount a, lookupD_incCount, hcnt]
        by_cases hx : a0 = a <;> simp [hx] <;> omega
      · intro a
        have hcnt : authoredCount api a (n :: ns) =
            authoredCount api a ns + (if a0 = a then 1 else 0) := by
          simp [authoredCount, List.countP_cons, hh, ha]
        rw [hnone a, mapGet_incCount_none, hcnt]
        by_cases hx : a0 = a
        · simp [hx]
        · have hax : a ≠ a0 := fun h => hx h.symm
          simp [hx, hax]

theorem statusLoop_find_missing (api : API) :
    ∀ ns : List Nat, (∀ n ∈ ns, authorOkAt api n = true) →
    ∀ m, ns.find? (fun k => (api.chain.getHeaderByNumber k).isNone) = some m →
    ∀ (o d : Nat) (st : List (Address × Nat)),
      statusLoop api ns o d st = .error (.missingBlock m) := by
  intro ns
  induction ns with
  | nil =>
      intro _ m hf
      simp at hf
  | cons n ns ih =>
      intro hauth m hf o d st
      rw [List.find?_cons] at hf
      cases hh : api.chain.getHeaderByNumber n with
      | none =>
          rw [hh] at hf
          simp at hf
          subst hf
          simp [statusLoop, hh]
      | some hd =>
          rw [hh] at hf
          simp at hf
          have han := hauth n (List.mem_cons_self n ns)
          unfold authorOkAt at han
          rw [hh] at han
          have han' : (match api.pbft.author hd with
              | .ok _ => true
              | .error _ => false) = true := han
          split at han'
          next a0 ha =>
            have hrec := ih (fun k hk => hauth k (List.mem_cons_of_mem n hk)) m hf
              (if hd.difficulty = api.pbft.diffInTurn then o + 1 else o)
              ((d + hd.difficulty % 2 ^ 64) % 2 ^ 64) (incCount st a0)
            have hstep : statusLoop api (n :: ns) o d st =
                statusLoop api ns
                  (if hd.difficulty = api.pbft.diffInTurn then o + 1 else o)
                  ((d + hd.difficulty % 2 ^ 64) % 2 ^ 64) (incCount st a0) := by
              simp [statusLoop, hh, ha]
            rw [hstep]
            exact hrec
          next e ha => simp at han'

theorem statusLoop_congr (api api' : API) (hpb : api'.pbft = api.pbft) :
    ∀ ns : List Nat,
      (∀ n ∈ ns, api'.chain.getHeaderByNumber n = api.chain.getHeaderByNumber n) →
    ∀ (o d : Nat) (st : List (Address × Nat)),
      statusLoop api' ns o d st = statusLoop api ns o d st := by
  intro ns
  induction ns with
  | nil =>
      intro _ o d st
      simp [statusLoop]
  | cons n ns ih =>
      intro hag o d st
      have h1 := hag n (List.mem_cons_self n ns)
      cases hh : api.chain.getHeaderByNumber n with
      | none => simp [statusLoop, h1, hh]
      | some hd =>
          have hrec := ih (fun k hk => hag k (List.mem_cons_of_mem n hk))
          cases ha : api.pbft.author hd with
          | error e => simp [statusLoop, h1, hh, hpb, ha]
          | ok a0 => simp [statusLoop, h1, hh, hpb, ha, hrec]

theorem blockStatus_eq_loop (api : API) (snap : Snapshot)
    (hsnap : snapshotOf api api.chain.currentHeader = .ok snap) :
    api.blockStatus =
      match statusLoop api (statusWindow api.chain.currentHeader.number) 0 0
          (initStatus snap.signers) with
      | .error e => .error e
      | .ok (optimals, _, st) =>
          .ok { inturnPercent := (100 * optimals : ℚ) /
                  ((reportedNumBlocks api.chain.currentHeader.number : Nat) : ℚ)
                signingStatus := st
                numBlocks := reportedNumBlocks api.chain.currentHeader.number } := by
  have h : api.pbft.snapshot api.chain api.chain.currentHeader.number
      api.chain.currentHeader.hash = .ok snap := hsnap
  simp only [API.blockStatus, h, statusWindow, windowStart, reportedNumBlocks,
    initStatus]

theorem windowStart_of_ge (N : Nat) (h64 : 64 ≤ N) (hN : N < 2 ^ 64) :
    windowStart N = N - 64 := by
  unfold windowStart usub64
  rw [if_neg (by omega)]
  have e : (2 : Nat) ^ 64 = 18446744073709551615 + 1 := by norm_num
  rw [e]
  omega

theorem statusWindow_of_ge (N : Nat) (h64 : 64 ≤ N) (hN : N < 2 ^ 64) :
    statusWindow N = List.range' (N - 64) 64 := by
  unfold statusWindow
  rw [windowStart_of_ge N h64 hN]
  congr 1
  omega

theorem statusWindow_of_lt (N : Nat) (h64 : N < 64) :
    statusWindow N = List.range' 1 (N - 1) := by
  unfold statusWindow windowStart
  rw [if_pos (by omega)]

theorem reportedNumBlocks_of_ge (N : Nat) (h64 : 64 ≤ N) :
    reportedNumBlocks N = 64 := by
  unfold reportedNumBlocks
  rw [if_neg (by omega)]

theorem reportedNumBlocks_of_lt (N : Nat) (h0 : 1 ≤ N) (h64 : N < 64) :
    reportedNumBlocks N = N - 1 := by
  unfold reportedNumBlocks usub64
  rw [if_pos (by omega)]
  have e : (2 : Nat) ^ 64 = 18446744073709551615 + 1 := by norm_num
  rw [e]
  omega

theorem reportedNumBlocks_eq_length (N : Nat) (h0 : 1 ≤ N) (hN : N < 2 ^ 64) :
    reportedNumBlocks N = (statusWindow N).length := by
  by_cases h : 64 ≤ N
  · rw [reportedNumBlocks_of_ge N h, statusWindow_of_ge N h hN]
    simp
  · rw [reportedNumBlocks_of_lt N h0 (by omega), statusWindow_of_lt N (by omega)]
    simp

theorem blockStatus_error_snap (api : API) (e : PbftError)
    (hsnap : snapshotOf api api.chain.currentHeader = .error e) :
    api.blockStatus = .error e := by
  have h : api.pbft.snapshot api.chain api.chain.currentHeader.number
      api.chain.currentHeader.hash = .error e := hsnap
  simp [API.blockStatus, h]

theorem numBlocks_of_ok (api : API) (r : BlockStatusRes)
    (h : api.blockStatus = .ok r) :
    r.numBlocks = reportedNumBlocks api.chain.currentHeader.number := by
  cases hs : snapshotOf api api.chain.currentHeader with
  | error e =>
      rw [blockStatus_error_snap api e hs] at h
      exact absurd h (by simp)
  | ok snap =>
      have hbs := blockStatus_eq_loop api snap hs
      rw [h] at hbs
      cases hloop : statusLoop api (statusWindow api.chain.currentHeader.number)
          0 0 (initStatus snap.signers) with
      | error e =>
          rw [hloop] at hbs
          exact absurd hbs (by simp)
      | ok t =>
          obtain ⟨o, d2, st⟩ := t
          rw [hloop] at hbs
          simp at hbs
          rw [hbs]

/-- The loop of `BlockStatus` only consults `GetHeaderByNumber` on the
window `statusWindow N` (plus the snapshot resolution at the head): two
states with the same engine, the same head header, agreeing snapshot
resolution and agreeing header lookups over the window produce identical
results. -/
theorem blockStatus_frame (api api' : API)
    (hpb : api'.pbft = api.pbft)
    (hhd : api'.chain.currentHeader = api.chain.currentHeader)
    (hsnap : api'.pbft.snapshot api'.chain api.chain.currentHeader.number
        api.chain.currentHeader.hash =
      api.pbft.snapshot api.chain api.chain.currentHeader.number
        api.chain.currentHeader.hash)
    (hag : ∀ n ∈ statusWindow api.chain.currentHeader.number,
      api'.chain.getHeaderByNumber n = api.chain.getHeaderByNumber n) :
    api'.blockStatus = api.blockStatus := by
  have hsnap' : snapshotOf api' api'.chain.currentHeader =
      snapshotOf api api.chain.currentHeader := by
    unfold snapshotOf
    rw [hhd, hsnap]
  cases hs : snapshotOf api api.chain.currentHeader with
  | error e =>
      rw [blockStatus_error_snap api e hs,
        blockStatus_error_snap api' e (hsnap'.trans hs)]
  | ok snap =>
      have hb1 := blockStatus_eq_loop api snap hs
      have hb2 := blockStatus_eq_loop api' snap (hsnap'.trans hs)
      rw [hb1, hb2, hhd,
        statusLoop_congr api api' hpb
          (statusWindow api.chain.currentHeader.number) hag 0 0
          (initStatus snap.signers)]

/-! ## Claims C1, C3, C8, C9: `BlockStatus` -/

/-- **C1** (amended: restricted to chains whose head number is at least 1;
at head number 0 the reported `NumBlocks` is `2^64 - 1`, not the number of
evaluated blocks — see the counterexample and C9). Over the window
`statusWindow N` (the last 64 block numbers below the head, clamped),
`BlockStatus` recomputes each block's author and in-turn flag and returns:
`NumBlocks` = the number of evaluated blocks, `InturnPercent` = 100 times
the fraction of in-turn blocks among them, and per-signer production
counts (every address's count is its number of authored blocks in the
window; every signer of the snapshot is present in the map). If any header
in the evaluated range is missing, it fails with the chain-read error
`missing block n` at the first missing number. -/
theorem C1_blockStatus_spec (api : API) (snap : Snapshot)
    (hsnap : snapshotOf api api.chain.currentHeader = .ok snap)
    (h1 : 1 ≤ api.chain.currentHeader.number)
    (h2 : api.chain.currentHeader.number < 2 ^ 64) :
    ((∀ n ∈ statusWindow api.chain.currentHeader.number, headerOk api n = true) →
      resNumBlocks api.blockStatus =
        some ((statusWindow api.chain.currentHeader.number).length) ∧
      resPercent api.blockStatus =
        some ((100 * (inturnCount api (statusWindow api.chain.currentHeader.number) : ℚ)) /
          ((((statusWindow api.chain.currentHeader.number).length : Nat)) : ℚ)) ∧
      (∀ a, resSealerCountD api.blockStatus a =
        some (authoredCount api a (statusWindow api.chain.currentHeader.number))) ∧
      (∀ a ∈ snap.signers, resSealerCount api.blockStatus a =
        some (authoredCount api a (statusWindow api.chain.currentHeader.number)))) ∧
    ((∀ n ∈ statusWindow api.chain.currentHeader.number, authorOkAt api n = true) →
      ∀ m, (statusWindow api.chain.currentHeader.number).find?
          (fun k => (api.chain.getHeaderByNumber k).isNone) = some m →
        api.blockStatus = .error (.missingBlock m)) := by
  constructor
  · intro hall
    obtain ⟨d', st', heq, hcount, hnone⟩ :=
      statusLoop_ok_spec api (statusWindow api.chain.currentHeader.number) hall
        0 0 (initStatus snap.signers)
    have hbs := blockStatus_eq_loop api snap hsnap
    rw [heq] at hbs
    simp only [Nat.zero_add] at hbs
    have hlen := reportedNumBlocks_eq_length api.chain.currentHeader.number h1 h2
    refine ⟨?_, ?_, ?_, ?_⟩
    · rw [hbs]
      simp [resNumBlocks, hlen]
    · rw [hbs]
      simp [resPercent, hlen]
    · intro a
      rw [hbs]
      simp [resSealerCountD, hcount a, lookupD_initStatus]
    · intro a hmem
      rw [hbs]
      simp only [resSealerCount]
      cases hst : mapGet st' a with
      | none =>
          have := (hnone a).mp hst
          rw [mapGet_initStatus] at this
          simp [hmem] at this
      | some c =>
          have hc : lookupD st' a = c := by
            unfold lookupD
            rw [hst]
            rfl
          rw [hcount a, lookupD_initStatus] at hc
          simp at hc
          rw [hc]
  · intro hauth m hfind
    have hloop := statusLoop_find_missing api
      (statusWindow api.chain.currentHeader.number) hauth m hfind 0 0
      (initStatus snap.signers)
    have hbs := blockStatus_eq_loop api snap hsnap
    rw [hloop] at hbs
    simpa using hbs

/-- Counterexample to C1 as stated: on a chain whose current head is the
genesis header (number 0) — a legitimate chain state — `BlockStatus`
evaluates no blocks at all (the window is empty) yet reports
`NumBlocks = 2^64 - 1`, which is not the number of blocks evaluated, and
not a window clamped to the chain length. -/
theorem C1_counterexample :
    zApi.blockStatus =
      .ok { inturnPercent := 0, signingStatus := [(7, 0)], numBlocks := 2 ^ 64 - 1 } ∧
    statusWindow zApi.chain.currentHeader.number = [] ∧
    (2 ^ 64 - 1 : Nat) ≠ 0 := by
  have h0 : zApi.blockStatus =
      .ok { inturnPercent := (100 * ((0 : Nat) : ℚ)) / (((2 ^ 64 - 1 : Nat)) : ℚ),
            signingStatus := [(7, 0)], numBlocks := 2 ^ 64 - 1 } := rfl
  have hq : (100 * ((0 : Nat) : ℚ)) / (((2 ^ 64 - 1 : Nat)) : ℚ) = 0 := by
    norm_num
  rw [hq] at h0
  exact ⟨h0, rfl, by decide⟩

/-- Witness for C1 (amended) on the concrete 100-block chain, plus the
missing-header failure on its variant lacking block 50. -/
theorem C1_witness :
    resNumBlocks wApi.blockStatus =
      some ((statusWindow wApi.chain.currentHeader.number).length) ∧
    resPercent wApi.blockStatus =
      some ((100 * (inturnCount wApi (statusWindow wApi.chain.currentHeader.number) : ℚ)) /
        ((((statusWindow wApi.chain.currentHeader.number).length : Nat)) : ℚ)) ∧
    resSealerCountD wApi.blockStatus 5 =
      some (authoredCount wApi 5 (statusWindow wApi.chain.currentHeader.number)) ∧
    resSealerCount wApi.blockStatus 7 =
      some (authoredCount wApi 7 (statusWindow wApi.chain.currentHeader.number)) ∧
    mApi.blockStatus = .error (.missingBlock 50) := by
  obtain ⟨hA, _⟩ := C1_blockStatus_spec wApi ⟨[5, 7]⟩ rfl (by decide) (by decide)
  obtain ⟨hn, hp, hc, hs⟩ := hA (by decide)
  obtain ⟨_, hB⟩ := C1_blockStatus_spec mApi ⟨[5, 7]⟩ rfl (by decide) (by decide)
  exact ⟨hn, hp, hc 5, hs 7 (by decide), hB (by decide) 50 (by decide)⟩

/-- **C3** (amended: a 64-block window evaluates 64 blocks, not 63; with
exactly 53 of the 64 evaluated blocks in-turn, `inturnPercent`
equals `100*53/64 = 82.8125`). -/
theorem C3_inturn_percent (api : API) (snap : Snapshot)
    (hsnap : snapshotOf api api.chain.currentHeader = .ok snap)
    (h64 : 64 ≤ api.chain.currentHeader.number)
    (hN : api.chain.currentHeader.number < 2 ^ 64)
    (hall : ∀ n ∈ statusWindow api.chain.currentHeader.number, headerOk api n = true)
    (h53 : inturnCount api (statusWindow api.chain.currentHeader.number) = 53) :
    resNumBlocks api.blockStatus = some 64 ∧
    resPercent api.blockStatus = some ((100 * 53 : ℚ) / 64) := by
  obtain ⟨d', st', heq, _, _⟩ :=
    statusLoop_ok_spec api (statusWindow api.chain.currentHeader.number) hall
      0 0 (initStatus snap.signers)
  have hbs := blockStatus_eq_loop api snap hsnap
  rw [heq] at hbs
  simp only [Nat.zero_add, h53] at hbs
  rw [reportedNumBlocks_of_ge _ h64] at hbs
  constructor
  · rw [hbs]
    rfl
  · rw [hbs]
    simp [resPercent]

/-- Counterexample to C3 as stated: a chain whose head number is 64
produces a full 64-block window in which all of the 64 (not 63) evaluated
blocks are counted; with exactly 53 of them in-turn the returned
`inturnPercent` is `100*53/64 = 82.8125`, not `100*53/63 ≈ 84.13`. A
64-block window with only 63 evaluated blocks cannot occur. -/
theorem C3_counterexample :
    cApi64.blockStatus =
      .ok { inturnPercent := (100 * ((53 : Nat) : ℚ)) / (((64 : Nat)) : ℚ),
            signingStatus := [(9, 64)], numBlocks := 64 } ∧
    inturnCount cApi64 (statusWindow cApi64.chain.currentHeader.number) = 53 ∧
    (statusWindow cApi64.chain.currentHeader.number).length = 64 ∧
    (100 * ((53 : Nat) : ℚ)) / (((64 : Nat)) : ℚ) ≠ 100 * 53 / 63 := by
  refine ⟨rfl, by decide, by decide, by norm_num⟩

/-- Witness for C3 (amended) at the concrete chain with head number 64 and
53 in-turn blocks among the 64 evaluated. -/
theorem C3_witness :
    resNumBlocks cApi64.blockStatus = some 64 ∧
    resPercent cApi64.blockStatus = some ((100 * 53 : ℚ) / 64) :=
  C3_inturn_percent cApi64 ⟨[9]⟩ rfl (by decide) (by decide) (by decide)
    (by decide)

/-- **C8.** For a head number `N ≥ 64`, `BlockStatus` evaluates exactly the
headers numbered `N-64` through `N-1`: the window is `range' (N-64) 64`,
any two states agreeing on the engine, the head header, snapshot
resolution, and the header lookups on `[N-64, N)` produce identical
results (in particular the head header itself and anything outside the
window is never read by the loop), and a successful call reports
`NumBlocks = 64`. -/
theorem C8_full_window (api api' : API)
    (hN : 64 ≤ api.chain.currentHeader.number)
    (hN' : api.chain.currentHeader.number < 2 ^ 64)
    (hpb : api'.pbft = api.pbft)
    (hhd : api'.chain.currentHeader = api.chain.currentHeader)
    (hsnap : api'.pbft.snapshot api'.chain api.chain.currentHeader.number
        api.chain.currentHeader.hash =
      api.pbft.snapshot api.chain api.chain.currentHeader.number
        api.chain.currentHeader.hash)
    (hag : ∀ n, api.chain.currentHeader.number - 64 ≤ n →
      n < api.chain.currentHeader.number →
      api'.chain.getHeaderByNumber n = api.chain.getHeaderByNumber n) :
    api'.blockStatus = api.blockStatus ∧
    statusWindow api.chain.currentHeader.number =
      List.range' (api.chain.currentHeader.number - 64) 64 ∧
    (∀ r, api.blockStatus = .ok r → r.numBlocks = 64) := by
  have hwin := statusWindow_of_ge api.chain.currentHeader.number hN hN'
  refine ⟨?_, hwin, ?_⟩
  · apply blockStatus_frame api api' hpb hhd hsnap
    intro n hn
    rw [hwin] at hn
    have hb := List.mem_range'_1.mp hn
    exact hag n (by omega) (by omega)
  · intro r hr
    rw [numBlocks_of_ok api r hr]
    exact reportedNumBlocks_of_ge _ hN

/-- Witness for C8: on the concrete head-100 chain, deleting every header
outside `[36, 100)` (including the head's own number) leaves the result
unchanged, the window is exactly `range' 36 64`, and `NumBlocks` is 64. -/
theorem C8_witness :
    wApiB.blockStatus = wApi.blockStatus ∧
    statusWindow wApi.chain.currentHeader.number =
      List.range' (wApi.chain.currentHeader.number - 64) 64 ∧
    wApi.blockStatus =
      .ok { inturnPercent := (100 * ((22 : Nat) : ℚ)) / (((64 : Nat)) : ℚ),
            signingStatus := [(5, 32), (7, 32)], numBlocks := 64 } ∧
    ({ inturnPercent := (100 * ((22 : Nat) : ℚ)) / (((64 : Nat)) : ℚ),
       signingStatus := [(5, 32), (7, 32)], numBlocks := 64 } : BlockStatusRes).numBlocks = 64 := by
  obtain ⟨h1, h2, h3⟩ := C8_full_window wApi wApiB (by decide) (by decide) rfl rfl rfl
    (fun n hn1 hn2 => by
      have h2 : n < 100 := hn2
      simp [wApiB, wApi, wChain, h2])
  exact ⟨h1, h2, rfl, h3 _ rfl⟩

/-- **C9.** Clamped and wraparound windows: (a) for a head number
`1 ≤ N ≤ 63` the loop evaluates exactly the headers numbered 1 through
`N-1` — the window is `range' 1 (N-1)`, excluding both genesis (block 0)
and the head — and a successful call reports `NumBlocks = N - 1`; (b) for
`N = 0` the `uint64` subtraction `end - start` wraps around: no header is
evaluated, and the call returns `NumBlocks = 2^64 - 1` with
`InturnPercent = 0` (and the all-zero signer counters). -/
theorem C9_clamped_and_wraparound :
    (∀ api api' : API,
      1 ≤ api.chain.currentHeader.number →
      api.chain.currentHeader.number < 64 →
      api'.pbft = api.pbft →
      api'.chain.currentHeader = api.chain.currentHeader →
      api'.pbft.snapshot api'.chain api.chain.currentHeader.number
          api.chain.currentHeader.hash =
        api.pbft.snapshot api.chain api.chain.currentHeader.number
          api.chain.currentHeader.hash →
      (∀ n, 1 ≤ n → n < api.chain.currentHeader.number →
        api'.chain.getHeaderByNumber n = api.chain.getHeaderByNumber n) →
      api'.blockStatus = api.blockStatus ∧
      statusWindow api.chain.currentHeader.number =
        List.range' 1 (api.chain.currentHeader.number - 1) ∧
      (∀ r, api.blockStatus = .ok r →
        r.numBlocks = api.chain.currentHeader.number - 1)) ∧
    (∀ (api : API) (snap : Snapshot),
      api.chain.currentHeader.number = 0 →
      snapshotOf api api.chain.currentHeader = .ok snap →
      api.blockStatus =
        .ok { inturnPercent := 0, signingStatus := initStatus snap.signers,
              numBlocks := 2 ^ 64 - 1 } ∧
      statusWindow api.chain.currentHeader.number = []) := by
  constructor
  · intro api api' h1 h64 hpb hhd hsnap hag
    have hwin := statusWindow_of_lt api.chain.currentHeader.number h64
    refine ⟨?_, hwin, ?_⟩
    · apply blockStatus_frame api api' hpb hhd hsnap
      intro n hn
      rw [hwin] at hn
      have hb := List.mem_range'_1.mp hn
      exact hag n (by omega) (by omega)
    · intro r hr
      rw [numBlocks_of_ok api r hr]
      exact reportedNumBlocks_of_lt _ h1 h64
  · intro api snap hz hsnap
    have hbs := blockStatus_eq_loop api snap hsnap
    rw [hz] at hbs
    have hw0 : statusWindow 0 = [] := rfl
    have hr0 : reportedNumBlocks 0 = 2 ^ 64 - 1 := by decide
    rw [hw0, hr0] at hbs
    simp only [statusLoop] at hbs
    refine ⟨?_, hz ▸ hw0⟩
    rw [hbs]
    norm_num

/-- Witness for C9: a head-10 chain (clamped window `[1, 10)`, with the
genesis lookup removable without effect, `NumBlocks = 9`), and the
genesis-headed chain (`NumBlocks = 2^64 - 1`, `InturnPercent = 0`, empty
window). -/
theorem C9_witness :
    sApiB.blockStatus = sApi.blockStatus ∧
    statusWindow sApi.chain.currentHeader.number =
      List.range' 1 (sApi.chain.currentHeader.number - 1) ∧
    sApi.blockStatus =
      .ok { inturnPercent := (100 * ((9 : Nat) : ℚ)) / (((9 : Nat)) : ℚ),
            signingStatus := [(3, 9)], numBlocks := 9 } ∧
    ({ inturnPercent := (100 * ((9 : Nat) : ℚ)) / (((9 : Nat)) : ℚ),
       signingStatus := [(3, 9)], numBlocks := 9 } : BlockStatusRes).numBlocks =
      sApi.chain.currentHeader.number - 1 ∧
    zApi.blockStatus =
      .ok { inturnPercent := 0,
            signingStatus := initStatus (Snapshot.mk [7]).signers,
            numBlocks := 2 ^ 64 - 1 } ∧
    statusWindow zApi.chain.currentHeader.number = [] := by
  obtain ⟨hA, hB⟩ := C9_clamped_and_wraparound
  obtain ⟨h1, h2, h3⟩ := hA sApi sApiB (by decide) (by decide) rfl rfl rfl
    (fun n hn1 hn2 => by
      have h2 : n < 10 := hn2
      have h3 : n ≤ 10 := Nat.le_of_lt h2
      simp [sApiB, sApi, hn1, h2, h3])
  obtain ⟨h4, h5⟩ := hB zApi ⟨[7]⟩ rfl rfl
  exact ⟨h1, h2, rfl, h3 _ rfl, h4, h5⟩

end Stormchain
